import Mathlib

/-!
# Verification of lmdiff's changed-file resolution and content pipeline

A shallow embedding of the core of `lmdiff` (Go): the changed-file
resolution and content-reconstruction pipeline.

* `pkg/diff/diff.go`: `GetChangedFiles`, `GetUntrackedFiles` (parsing of
  the version-control tool's stdout), `GetFileContent`,
  `GetLocalFileContent`, `IsDirectory` (external calls, modelled as an
  environment of oracles), `GetAllFilesInDirectory` (recursive walk with
  `.git` pruning, modelled over an explicit file-system tree).
* `main.go`: `processFile` (two-level content fallback) and the
  path-processing loop of `main` (skip blanks, classify, expand
  directories, accumulate the content map and warnings).

External effects (git subprocesses, `os.Stat`, `os.ReadFile`) are modelled
as pure oracles in an `Env` record: each oracle returns `Except String α`
exactly where the Go function returns `(α, error)`.
-/

namespace Lmdiff

/-- Environment of external effects available to `main.go`'s loop.  Each
field models the result of the corresponding function of `pkg/diff`:

* `getFileContent branch filename` — `git show branch:filename`
  (`GetFileContent`); `Except.error` when the command exits non-zero.
* `getLocalFileContent filename` — `os.ReadFile` (`GetLocalFileContent`).
* `isDirectory path` — `os.Stat` + `IsDir` (`IsDirectory`).
* `getAllFilesInDirectory path` — the recursive walk
  (`GetAllFilesInDirectory`); its internal structure is modelled
  separately below over explicit file-system trees. -/
structure Env where
  getFileContent : String → String → Except String String
  getLocalFileContent : String → Except String String
  isDirectory : String → Except String Bool
  getAllFilesInDirectory : String → Except String (List String)

/-- A diagnostic: one of the three `log.Printf("Warning: ...")` calls of
`main.go`, tagged with the path it concerns. -/
inductive Diag where
  /-- `Warning: cannot retrieve content for %s` (in `processFile`). -/
  | cannotRetrieve (path : String) : Diag
  /-- `Warning: could not determine if %s is a directory`. -/
  | classifyFailed (path : String) : Diag
  /-- `Warning: could not read directory %s`. -/
  | readDirFailed (path : String) : Diag
deriving DecidableEq, Repr

/-- The fixed placeholder text of `processFile`. -/
def placeholder : String := "Error retrieving file content."

/-- Embedding of `processFile` (main.go): try the branch content first,
fall back to the local file, and on double failure return the placeholder.
The second component collects the warnings logged along the way. -/
def processFile (env : Env) (file branch : String) : String × List Diag :=
  match env.getFileContent branch file with
  | .ok content => (content, [])
  | .error _ =>
    match env.getLocalFileContent file with
    | .ok localContent => (localContent, [])
    | .error _ => (placeholder, [Diag.cannotRetrieve file])

/-- Embedding of one iteration of the path-processing loop of `main`
(main.go): skip the empty entry, classify, expand a directory via
`GetAllFilesInDirectory`, resolve contents via `processFile`.  Returns the
sequence of writes into `originalFiles` and the warnings emitted. -/
def processEntry (env : Env) (branch file : String) :
    List (String × String) × List Diag :=
  if file = "" then ([], [])
  else
    match env.isDirectory file with
    | .error _ => ([], [Diag.classifyFailed file])
    | .ok true =>
      match env.getAllFilesInDirectory file with
      | .error _ => ([], [Diag.readDirFailed file])
      | .ok dirFiles =>
        (dirFiles.map fun dirFile => (dirFile, (processFile env dirFile branch).1),
         (dirFiles.map fun dirFile => (processFile env dirFile branch).2).flatten)
    | .ok false =>
      ([(file, (processFile env file branch).1)], (processFile env file branch).2)

/-- The whole path-processing loop of `main`: fold `processEntry` over the
combined change list, concatenating map writes and warnings in order. -/
def mainLoop (env : Env) (branch : String) : List String → List (String × String) × List Diag
  | [] => ([], [])
  | file :: rest =>
    ((processEntry env branch file).1 ++ (mainLoop env branch rest).1,
     (processEntry env branch file).2 ++ (mainLoop env branch rest).2)

/-- Go's `unicode.IsSpace` on a character: the White_Space code points
trimmed by `strings.TrimSpace`. -/
def isGoSpace (c : Char) : Bool :=
  c.toNat = 0x20 || (0x9 ≤ c.toNat && c.toNat ≤ 0xD) || c.toNat = 0x85 ||
  c.toNat = 0xA0 || c.toNat = 0x1680 ||
  (0x2000 ≤ c.toNat && c.toNat ≤ 0x200A) || c.toNat = 0x2028 ||
  c.toNat = 0x2029 || c.toNat = 0x202F || c.toNat = 0x205F || c.toNat = 0x3000

/-- Embedding of `strings.TrimSpace`: drop White_Space characters from
both ends of the string. -/
def trimSpace (s : String) : String :=
  String.mk (((s.data.dropWhile isGoSpace).reverse.dropWhile isGoSpace).reverse)

/-- Embedding of `strings.Split(s, "\n")` at the character-list level:
the (possibly empty) segments between newline separators. -/
def splitLines : List Char → List (List Char)
  | [] => [[]]
  | c :: cs =>
    if c = '\n' then [] :: splitLines cs
    else
      match splitLines cs with
      | [] => [[c]]
      | l :: ls => (c :: l) :: ls

/-- `strings.Split(s, "\n")` as a function on strings. -/
def splitOnNewlines (s : String) : List String :=
  (splitLines s.data).map fun l => String.mk l

/-- Embedding of `GetUntrackedFiles` (pkg/diff/diff.go) as a function of
the stdout of `git ls-files --others --exclude-standard`:
`strings.Split(strings.TrimSpace(out), "\n")`, normalised to `[]` when the
split yields exactly one empty entry. -/
def GetUntrackedFiles (untrackedOut : String) : List String :=
  let files := splitOnNewlines (trimSpace untrackedOut)
  if files = [""] then [] else files

/-- Embedding of `GetChangedFiles` (pkg/diff/diff.go) as a function of the
stdout of `git diff --name-only` and (when `includeUntracked`) the stdout
of the untracked listing: the same split-and-normalise on the changed
output, then append the untracked files. -/
def GetChangedFiles (changedOut : String) (includeUntracked : Bool)
    (untrackedOut : String) : List String :=
  let files0 := splitOnNewlines (trimSpace changedOut)
  let files := if files0 = [""] then [] else files0
  if includeUntracked then files ++ GetUntrackedFiles untrackedOut else files

/-- The top of `main` (main.go) relevant to path processing: form the
combined changed-file list, then run the path-processing loop over it.
Returns the change set handed to the prompt formatter together with the
loop's content-map writes and warnings. -/
def mainRun (env : Env) (branch changedOut : String) (includeUntracked : Bool)
    (untrackedOut : String) :
    List String × (List (String × String) × List Diag) :=
  (GetChangedFiles changedOut includeUntracked untrackedOut,
   mainLoop env branch (GetChangedFiles changedOut includeUntracked untrackedOut))

/-! ## Basic lemmas about the line splitter and the loop -/

theorem splitLines_ne_nil (cs : List Char) : splitLines cs ≠ [] := by
  induction cs with
  | nil => simp [splitLines]
  | cons c cs ih =>
    by_cases h : c = '\n'
    · simp [splitLines, h]
    · simp only [splitLines, if_neg h]
      rcases hs : splitLines cs with _ | ⟨l, ls⟩
      · simp
      · simp

theorem splitLines_eq_single_nil {cs : List Char} (h : splitLines cs = [[]]) :
    cs = [] := by
  cases cs with
  | nil => rfl
  | cons c cs =>
    exfalso
    by_cases hc : c = '\n'
    · rw [splitLines, if_pos hc] at h
      have : splitLines cs = [] := by
        injection h with _ h2
      exact splitLines_ne_nil cs this
    · rw [splitLines, if_neg hc] at h
      rcases hs : splitLines cs with _ | ⟨l, ls⟩
      · rw [hs] at h; simp at h
      · rw [hs] at h
        injection h with h1 _
        simp at h1

theorem mainLoop_append (env : Env) (b : String) (xs ys : List String) :
    mainLoop env b (xs ++ ys) =
      ((mainLoop env b xs).1 ++ (mainLoop env b ys).1,
       (mainLoop env b xs).2 ++ (mainLoop env b ys).2) := by
  induction xs with
  | nil => simp [mainLoop]
  | cons x xs ih => simp [mainLoop, ih, List.append_assoc]

/-! ## Claims C1-C3: the content resolver `processFile` -/

/-- C1: For every branch and path, `processFile` never returns an error to
its caller: it returns either the content fetched from the revision, or
the content read from the local working tree, or the fixed placeholder
string; in the placeholder case exactly one warning diagnostic is
recorded for that path. -/
theorem c1_processFile_total (env : Env) (file branch : String) :
    (∃ c, env.getFileContent branch file = .ok c ∧
      processFile env file branch = (c, [])) ∨
    (∃ e c, env.getFileContent branch file = .error e ∧
      env.getLocalFileContent file = .ok c ∧
      processFile env file branch = (c, [])) ∨
    processFile env file branch = (placeholder, [Diag.cannotRetrieve file]) := by
  rcases h : env.getFileContent branch file with e | c
  · rcases h2 : env.getLocalFileContent file with e2 | c2
    · right; right
      simp [processFile, h, h2]
    · right; left
      exact ⟨e, c2, rfl, rfl, by simp [processFile, h, h2]⟩
  · left
    exact ⟨c, rfl, by simp [processFile, h]⟩

/-- C2: when the revision fetch succeeds, `processFile` returns exactly
the revision's content with no diagnostic, and the local working tree is
not consulted: the result is unchanged under any replacement of the
local-read oracle. -/
theorem c2_revision_wins (env : Env) (file branch c : String)
    (h : env.getFileContent branch file = .ok c) :
    processFile env file branch = (c, []) ∧
    ∀ lc, processFile { env with getLocalFileContent := lc } file branch = (c, []) := by
  refine ⟨by simp [processFile, h], fun lc => by simp [processFile, h]⟩

/-- Concrete environment for the C2 witness: every path exists at the
revision with content "old" while the working tree holds "new". -/
def envRevWins : Env where
  getFileContent := fun _ _ => .ok "old"
  getLocalFileContent := fun _ => .ok "new"
  isDirectory := fun _ => .ok false
  getAllFilesInDirectory := fun _ => .error "unused"

/-- Witness for C2 at a concrete input: content "old" at the revision
beats local content, and swapping the local oracle changes nothing. -/
theorem c2_revision_wins_witness :
    processFile envRevWins "src/a.go" "main" = ("old", []) ∧
    processFile { envRevWins with getLocalFileContent := fun _ => Except.error "gone" }
      "src/a.go" "main" = ("old", []) :=
  ⟨(c2_revision_wins envRevWins "src/a.go" "main" "old" rfl).1,
   (c2_revision_wins envRevWins "src/a.go" "main" "old" rfl).2 _⟩

/-- C3: when the revision fetch fails for any reason (any error value `e`,
not only not-found), `processFile` falls back to the local working tree,
and a successful local read yields the local content with no diagnostic. -/
theorem c3_fallback_to_local (env : Env) (file branch e lc : String)
    (h1 : env.getFileContent branch file = .error e)
    (h2 : env.getLocalFileContent file = .ok lc) :
    processFile env file branch = (lc, []) := by
  simp [processFile, h1, h2]

/-- Concrete environment for the C3 witness: the revision fetch fails with
an arbitrary tool error (not a not-found) and the local read succeeds. -/
def envLocalOnly : Env where
  getFileContent := fun _ _ => .error "error getting file content: exit status 128"
  getLocalFileContent := fun _ => .ok "hello"
  isDirectory := fun _ => .ok false
  getAllFilesInDirectory := fun _ => .error "unused"

/-- Witness for C3 at a concrete input: the untracked file's local content
is returned after the revision fetch fails. -/
theorem c3_fallback_to_local_witness :
    processFile envLocalOnly "notes.txt" "main" = ("hello", []) :=
  c3_fallback_to_local envLocalOnly "notes.txt" "main"
    "error getting file content: exit status 128" "hello" rfl rfl

/-! ## Claims C7, C8, C10: parsing of the tool output -/

/-- C7: when the underlying tool output trims to the empty string (e.g. a
single blank line), both `GetChangedFiles` and `GetUntrackedFiles` return
the empty sequence — not an error and not `[""]`. -/
theorem c7_blank_output_is_empty (changedOut untrackedOut : String) (inc : Bool)
    (h1 : trimSpace changedOut = "") (h2 : trimSpace untrackedOut = "") :
    GetChangedFiles changedOut inc untrackedOut = [] ∧
    GetUntrackedFiles untrackedOut = [] := by
  have hu : GetUntrackedFiles untrackedOut = [] := by
    rw [GetUntrackedFiles, h2]
    simp [splitOnNewlines, splitLines]
  refine ⟨?_, hu⟩
  rw [GetChangedFiles, h1, hu]
  cases inc <;> simp [splitOnNewlines, splitLines]

/-- Witness for C7 at the concrete input of a single blank line of tool
output on each side. -/
theorem c7_blank_output_is_empty_witness :
    GetChangedFiles "\n" true "\n" = [] ∧ GetUntrackedFiles "\n" = [] :=
  c7_blank_output_is_empty "\n" "\n" true (by decide) (by decide)

/-- C8: with `includeUntracked = true`, the combined change set is exactly
the tracked-changed paths (what `GetChangedFiles` yields without
untracked) followed by the untracked paths, each group in tool-output
order. -/
theorem c8_tracked_then_untracked (changedOut untrackedOut : String) :
    GetChangedFiles changedOut true untrackedOut =
      GetChangedFiles changedOut false untrackedOut ++
        GetUntrackedFiles untrackedOut := rfl

/-- C10: when the trimmed tool output is non-empty, the result is exactly
the newline-split lines of the trimmed output — the `[""]` normalisation
does not fire, so interior blank lines survive as empty-string entries. -/
theorem c10_nonblank_output_splits (out : String) (h : trimSpace out ≠ "") :
    GetUntrackedFiles out = splitOnNewlines (trimSpace out) ∧
    ∀ u, GetChangedFiles out false u = splitOnNewlines (trimSpace out) := by
  have hne : splitOnNewlines (trimSpace out) ≠ [""] := by
    intro hc
    apply h
    have hsplit : splitLines (trimSpace out).data = [[]] := by
      rw [splitOnNewlines] at hc
      rcases hs : splitLines (trimSpace out).data with _ | ⟨l, ls⟩
      · exact absurd hs (splitLines_ne_nil _)
      · rw [hs] at hc
        simp only [List.map_cons] at hc
        injection hc with hc1 hc2
        have hl : l = [] := by
          have := congrArg String.data hc1
          simpa using this
        have hls : ls = [] := by
          cases ls with
          | nil => rfl
          | cons a as => simp at hc2
        rw [hl, hls]
    have hdata : (trimSpace out).data = [] := splitLines_eq_single_nil hsplit
    apply String.ext
    simpa using hdata
  constructor
  · rw [GetUntrackedFiles]
    simp [hne]
  · intro u
    rw [GetChangedFiles]
    simp [hne]

/-- Witness for C10 at a concrete input with an interior blank line: the
blank line yields an empty-string entry in the result. -/
theorem c10_nonblank_output_splits_witness :
    GetUntrackedFiles "a.go\n\nb.go" = ["a.go", "", "b.go"] ∧
    GetChangedFiles "a.go\n\nb.go" false "" = ["a.go", "", "b.go"] := by
  have h := c10_nonblank_output_splits "a.go\n\nb.go" (by decide)
  exact ⟨by rw [h.1]; decide, by rw [h.2 ""]; decide⟩

/-! ## Claims C4 and C9: the path-processing loop of `main` -/

/-- Concrete environment for C4: the path "bad" cannot be classified
(`os.Stat` fails), while "good.go" is a regular file with content at the
revision. -/
def envC4 : Env where
  getFileContent := fun _ p => if p = "good.go" then .ok "v1" else .error "no"
  getLocalFileContent := fun _ => .error "no"
  isDirectory := fun p =>
    if p = "good.go" then .ok false else .error "stat bad: no such file"
  getAllFilesInDirectory := fun _ => .error "unused"

/-- Counterexample to C4 as stated: a path whose classification fails is
still present in the ChangeSet handed to the formatter (the combined list
is formed before classification, and the skip cannot remove it), even
though it contributes nothing to the ContentMap and emits exactly one
Diagnostic while the remaining path is processed. -/
theorem c4_counterexample :
    "bad" ∈ (mainRun envC4 "main" "bad\ngood.go" false "").1 ∧
    (mainRun envC4 "main" "bad\ngood.go" false "").2 =
      ([("good.go", "v1")], [Diag.classifyFailed "bad"]) := by decide

/-- C4 (amended): when a non-empty entry of the combined list fails
directory classification, the loop skips it: it contributes nothing to
the ContentMap, exactly one Diagnostic is emitted for it, and the
remaining entries are processed exactly as they would be without it.  (It
does remain in the ChangeSet, which is formed before classification.) -/
theorem c4_classify_failure_skips (env : Env) (b f : String) (xs ys : List String)
    (e : String) (hf : f ≠ "") (h : env.isDirectory f = .error e) :
    mainLoop env b (xs ++ f :: ys) =
      ((mainLoop env b xs).1 ++ (mainLoop env b ys).1,
       (mainLoop env b xs).2 ++ Diag.classifyFailed f :: (mainLoop env b ys).2) := by
  have hstep : mainLoop env b (f :: ys) =
      ((mainLoop env b ys).1, Diag.classifyFailed f :: (mainLoop env b ys).2) := by
    simp [mainLoop, processEntry, hf, h]
  rw [mainLoop_append, hstep]

/-- Witness for the amended C4 at a concrete input: the unclassifiable
path "bad" between a processed file and the empty tail. -/
theorem c4_classify_failure_skips_witness :
    mainLoop envC4 "main" (["good.go"] ++ "bad" :: []) =
      ((mainLoop envC4 "main" ["good.go"]).1 ++ (mainLoop envC4 "main" []).1,
       (mainLoop envC4 "main" ["good.go"]).2 ++
         Diag.classifyFailed "bad" :: (mainLoop envC4 "main" []).2) :=
  c4_classify_failure_skips envC4 "main" "bad" ["good.go"] []
    "stat bad: no such file" (by decide) rfl

/-- Concrete environment for C9: the whitespace-only path " " is a
regular file whose content exists at the revision. -/
def envWs : Env where
  getFileContent := fun _ p => if p = " " then .ok "spacecontent" else .error "no"
  getLocalFileContent := fun _ => .error "no"
  isDirectory := fun p => if p = " " then .ok false else .error "stat"
  getAllFilesInDirectory := fun _ => .error "unused"

/-- Counterexample to C9 as stated: a whitespace-only (but non-empty)
entry is NOT skipped by the loop — it is classified, resolved, and a
ContentMap entry is written for it; the loop's skip test is `file == ""`,
not a blank test. -/
theorem c9_counterexample :
    (mainLoop envWs "main" [" "]).1 = [(" ", "spacecontent")] ∧
    (mainLoop envWs "main" [" "]).1 ≠ [] := by decide

/-- C9 (amended): entries that are exactly the empty string are skipped by
the loop: removing them changes neither the ContentMap writes nor the
diagnostics — no classification or content resolution happens for them. -/
theorem c9_empty_entries_skipped (env : Env) (b : String) (xs ys : List String) :
    mainLoop env b (xs ++ "" :: ys) = mainLoop env b (xs ++ ys) := by
  rw [mainLoop_append, mainLoop_append]
  simp [mainLoop, processEntry]

/-! ## Claims C5 and C6: the recursive directory walk -/

/-- A file-system tree: the view of the disk that the `filepath.Walk` of
`GetAllFilesInDirectory` (pkg/diff/diff.go) visits.  `broken` is a node
whose `lstat` (or directory read) fails, which `filepath.Walk` reports to
the callback as a non-nil error. -/
inductive FsNode where
  | file (name : String) : FsNode
  | dir (name : String) (children : List FsNode) : FsNode
  | broken (name : String) : FsNode
deriving Repr

/-- The entry name of a node. -/
def FsNode.name : FsNode → String
  | .file n => n
  | .dir n _ => n
  | .broken n => n

mutual
/-- Embedding of `filepath.Walk` as run by `GetAllFilesInDirectory` on the
subtree rooted at `path`: a stat failure aborts with the error (the
callback returns `err`); a directory named ".git" is pruned
(`filepath.SkipDir`); only non-directory entries are collected. -/
def walkFrom (path : String) : FsNode → Except String (List String)
  | .broken _ => .error ("error walking directory " ++ path)
  | .file _ => .ok [path]
  | .dir n children =>
    if n = ".git" then .ok []
    else walkChildren path children

/-- Walk the children of the directory at `path` in order, aborting the
whole walk on the first error. -/
def walkChildren (path : String) : List FsNode → Except String (List String)
  | [] => .ok []
  | c :: cs =>
    match walkFrom (path ++ "/" ++ c.name) c with
    | .error e => .error e
    | .ok fs =>
      match walkChildren path cs with
      | .error e => .error e
      | .ok rest => .ok (fs ++ rest)
end

/-- Embedding of `GetAllFilesInDirectory dirPath`, given the file-system
tree `root` found at `dirPath`; returns the collected file list or the
error that aborted the walk (in which case the Go function returns
`nil, err` — no partial list). -/
def GetAllFilesInDirectory (dirPath : String) (root : FsNode) :
    Except String (List String) :=
  walkFrom dirPath root

/-- `FileAt base t q`: `q` is the full path of a regular-file node of the
tree `t` (itself rooted at path `base`), reachable without descending
into any directory named ".git". -/
inductive FileAt : String → FsNode → String → Prop where
  | here (base n : String) : FileAt base (.file n) base
  | child (base n : String) (children : List FsNode) (c : FsNode) (q : String)
      (hmem : c ∈ children) (hn : n ≠ ".git")
      (h : FileAt (base ++ "/" ++ c.name) c q) :
      FileAt base (.dir n children) q

mutual
/-- Whether the walk will encounter a stat/read failure: a `broken` node
reachable without passing through a pruned ".git" directory. -/
def hasBroken : FsNode → Bool
  | .broken _ => true
  | .file _ => false
  | .dir n children => if n = ".git" then false else hasBrokenList children

/-- `hasBroken` over a list of sibling nodes. -/
def hasBrokenList : List FsNode → Bool
  | [] => false
  | c :: cs => hasBroken c || hasBrokenList cs
end

theorem walkChildren_sound (path : String) (cs : List FsNode)
    (ih : ∀ c ∈ cs, ∀ p fs, walkFrom p c = .ok fs → ∀ q ∈ fs, FileAt p c q) :
    ∀ fs, walkChildren path cs = .ok fs →
      ∀ q ∈ fs, ∃ c ∈ cs, FileAt (path ++ "/" ++ c.name) c q := by
  induction cs with
  | nil =>
    intro fs hw q hq
    simp only [walkChildren] at hw
    cases hw
    simp at hq
  | cons c cs ihl =>
    intro fs hw q hq
    simp only [walkChildren] at hw
    rcases h1 : walkFrom (path ++ "/" ++ c.name) c with e | fs1 <;> rw [h1] at hw
    · simp at hw
    · rcases h2 : walkChildren path cs with e | rest <;> rw [h2] at hw
      · simp at hw
      · simp only [Except.ok.injEq] at hw
        subst hw
        rcases List.mem_append.mp hq with hq1 | hq2
        · exact ⟨c, List.mem_cons_self c cs, ih c (List.mem_cons_self c cs) _ _ h1 q hq1⟩
        · obtain ⟨c2, hc2, hf⟩ :=
            ihl (fun c2 hc2 => ih c2 (List.mem_cons_of_mem c hc2)) rest h2 q hq2
          exact ⟨c2, List.mem_cons_of_mem c hc2, hf⟩

theorem walkFrom_sound_aux :
    ∀ (k : Nat) (t : FsNode), sizeOf t ≤ k →
      ∀ path fs, walkFrom path t = .ok fs → ∀ q ∈ fs, FileAt path t q := by
  intro k
  induction k using Nat.strongRecOn with
  | ind k ih =>
    intro t hk path fs hw q hq
    cases t with
    | file n =>
      simp only [walkFrom, Except.ok.injEq] at hw
      subst hw
      simp only [List.mem_singleton] at hq
      subst hq
      exact FileAt.here _ n
    | broken n => simp [walkFrom] at hw
    | dir n children =>
      by_cases hgit : n = ".git"
      · rw [walkFrom, if_pos hgit] at hw
        cases hw
        simp at hq
      · rw [walkFrom, if_neg hgit] at hw
        have hsub : ∀ c ∈ children, ∀ p fs2, walkFrom p c = .ok fs2 →
            ∀ q2 ∈ fs2, FileAt p c q2 := by
          intro c hc p fs2 hw2 q2 hq2
          have hlt : sizeOf c < sizeOf (FsNode.dir n children) := by
            have := List.sizeOf_lt_of_mem hc
            simp only [FsNode.dir.sizeOf_spec]
            omega
          exact ih (sizeOf c) (lt_of_lt_of_le hlt hk) c le_rfl p fs2 hw2 q2 hq2
        obtain ⟨c, hc, hf⟩ := walkChildren_sound path children hsub fs hw q hq
        exact FileAt.child path n children c q hc hgit hf

/-- C5: every element of a successful `GetAllFilesInDirectory` result is
the path of a regular-file node reached without descending into any
directory named ".git" — so the result contains no directory entries and
no path beneath a pruned `.git` subtree. -/
theorem c5_walk_yields_only_clean_files (dirPath : String) (root : FsNode)
    (fs : List String) (h : GetAllFilesInDirectory dirPath root = .ok fs) :
    ∀ q ∈ fs, FileAt dirPath root q :=
  walkFrom_sound_aux (sizeOf root) root le_rfl dirPath fs h

/-- Concrete tree for the C5 witness: a package directory with a nested
`.git` subtree to be pruned. -/
def pkgTree : FsNode :=
  .dir "pkg" [.file "a.go", .dir ".git" [.file "ignored"], .dir "sub" [.file "b.go"]]

/-- Witness for C5 at a concrete tree: the walk succeeds with exactly the
two clean files, and the first is a clean regular-file path. -/
theorem c5_walk_yields_only_clean_files_witness : FileAt "pkg" pkgTree "pkg/a.go" :=
  c5_walk_yields_only_clean_files "pkg" pkgTree ["pkg/a.go", "pkg/sub/b.go"] rfl
    "pkg/a.go" (List.mem_cons_self _ _)

theorem walkChildren_ok_no_broken (path : String) (cs : List FsNode)
    (ih : ∀ c ∈ cs, ∀ p fs, walkFrom p c = .ok fs → hasBroken c = false) :
    ∀ fs, walkChildren path cs = .ok fs → hasBrokenList cs = false := by
  induction cs with
  | nil => intro fs _; rfl
  | cons c cs ihl =>
    intro fs hw
    simp only [walkChildren] at hw
    rcases h1 : walkFrom (path ++ "/" ++ c.name) c with e | fs1 <;> rw [h1] at hw
    · simp at hw
    · rcases h2 : walkChildren path cs with e | rest <;> rw [h2] at hw
      · simp at hw
      · have hhd := ih c (List.mem_cons_self c cs) _ _ h1
        have htl := ihl (fun c2 hc2 => ih c2 (List.mem_cons_of_mem c hc2)) rest h2
        simp [hasBrokenList, hhd, htl]

theorem walkFrom_ok_no_broken_aux :
    ∀ (k : Nat) (t : FsNode), sizeOf t ≤ k →
      ∀ path fs, walkFrom path t = .ok fs → hasBroken t = false := by
  intro k
  induction k using Nat.strongRecOn with
  | ind k ih =>
    intro t hk path fs hw
    cases t with
    | file n => rfl
    | broken n => simp [walkFrom] at hw
    | dir n children =>
      by_cases hgit : n = ".git"
      · simp [hasBroken, hgit]
      · rw [walkFrom, if_neg hgit] at hw
        rw [hasBroken, if_neg hgit]
        refine walkChildren_ok_no_broken path children ?_ fs hw
        intro c hc p fs2 hw2
        have hlt : sizeOf c < sizeOf (FsNode.dir n children) := by
          have := List.sizeOf_lt_of_mem hc
          simp only [FsNode.dir.sizeOf_spec]
          omega
        exact ih (sizeOf c) (lt_of_lt_of_le hlt hk) c le_rfl p fs2 hw2

/-- C6: when the walk will encounter any stat/read failure (outside pruned
subtrees), `GetAllFilesInDirectory` aborts and surfaces the error: its
result carries no file list at all — never a partially collected sequence
alongside success. -/
theorem c6_walk_aborts_on_error (dirPath : String) (root : FsNode)
    (h : hasBroken root = true) :
    (GetAllFilesInDirectory dirPath root).toOption = none := by
  rcases hw : GetAllFilesInDirectory dirPath root with e | fs
  · rfl
  · have hfalse := walkFrom_ok_no_broken_aux (sizeOf root) root le_rfl dirPath fs hw
    rw [h] at hfalse
    cases hfalse

/-- Concrete tree for the C6 witness: traversal hits an unreadable entry
after having already seen a regular file. -/
def brokenTree : FsNode :=
  .dir "top" [.file "seen.txt", .broken "locked"]

/-- Witness for C6 at a concrete tree: the walk returns no list. -/
theorem c6_walk_aborts_on_error_witness :
    (GetAllFilesInDirectory "top" brokenTree).toOption = none :=
  c6_walk_aborts_on_error "top" brokenTree rfl

end Lmdiff
